import Mathlib

/-!
# Verification of the dead-frame-remover core (`src-tauri/src/video_fixer.rs`)

Shallow embedding of the frame-deduplication pipeline:

* images are grayscale (`to_luma8`) pixel grids; `f32` arithmetic of the
  SSIM-style scorer is modelled exactly over `ℚ` (all quantities involved in
  the claims are exactly representable, and for the properties at stake the
  exact-arithmetic model agrees with the `f32` computation);
* a decoded image is `Option Img`: `none` models `image::open` failing,
  mirroring the `Result` of `compare_images_ssim_crate`;
* the rayon `par_chunks(10).for_each` loop appends each chunk's local result
  vector to a mutex-guarded shared vector; the mutex serialises the appends
  but does *not* fix their order, so the aggregate is `order.flatten` for an
  arbitrary permutation `order` of the per-chunk result lists;
* `frames_vec.len() - 1` is a `usize` subtraction: in release builds it wraps
  modulo `2^64`, which `usizePred` models explicitly;
* the filesystem walked by `collect_files` is an abstract tree whose
  directory entries appear in the (unspecified, platform-dependent) order
  `read_dir` yields them; `par_bridge` may additionally permute that order,
  so any traversal order realisable sequentially is realisable concurrently;
* the process-wide `FFMPEG_PATH: Lazy<Mutex<Option<String>>>` cache is a
  state machine over `Option String`; the mutex serialises whole calls of
  `get_ffmpeg_path`, so a concurrent execution is some sequential trace.
-/

/-- A decoded grayscale image: dimensions plus the luma value of each pixel
(`get_pixel(x, y)[0] as f32`; values are `u8`, hence `Nat`). -/
structure Img where
  width : Nat
  height : Nat
  pixel : Nat → Nat → Nat

/-- `c1 = (k1 * l).powi(2)` with `k1 = 0.01`, `l = 255.0`. -/
def ssimC1 : ℚ := ((1/100 : ℚ) * 255)^2

/-- `c2 = (k2 * l).powi(2)` with `k2 = 0.03`, `l = 255.0`. -/
def ssimC2 : ℚ := ((3/100 : ℚ) * 255)^2

/-- The per-pixel term of the inner loop of `compare_images_ssim_crate`:
means are the pixel values themselves, the variance and covariance terms are
differences against those means, and the SSIM quotient is formed from them. -/
def ssimTerm (p1 p2 : ℚ) : ℚ :=
  let mu1 := p1
  let mu2 := p2
  let sigma1Sq := (p1 - mu1)^2
  let sigma2Sq := (p2 - mu2)^2
  let sigma12 := (p1 - mu1) * (p2 - mu2)
  ((2*mu1*mu2 + ssimC1) * (2*sigma12 + ssimC2)) /
    ((mu1^2 + mu2^2 + ssimC1) * (sigma1Sq + sigma2Sq + ssimC2))

/-- `ssim_sum`: the parallel row loop of `compare_images_ssim_crate`; each
row's partial sum is independent and the rows are combined by summation. -/
def ssimSum (a b : Img) : ℚ :=
  ((List.range a.height).map (fun y =>
    ((List.range a.width).map (fun x =>
      ssimTerm (a.pixel x y) (b.pixel x y))).sum)).sum

/-- `compare_images_ssim_crate`: `none` models the `Err` cases (an image
fails to decode, or the two luma images have different dimensions);
otherwise the averaged SSIM sum is returned. -/
def compare_images_ssim_crate (img1 img2 : Option Img) : Option ℚ :=
  match img1, img2 with
  | some a, some b =>
      if a.width = b.width ∧ a.height = b.height then
        some (ssimSum a b / ((a.width * a.height : Nat) : ℚ))
      else
        none
  | _, _ => none

/-- `batch_size` from `process_video`. -/
def batch_size : Nat := 10

/-- The score actually used by `process_video`:
`compare_images_ssim_crate(..).unwrap_or(0.0)`. -/
def scoreOrZero (a b : Option Img) : ℚ :=
  (compare_images_ssim_crate a b).getD 0

/-- The per-pair decision `score > 0.95` pushed into `local_results`
(`true` = the earlier frame is a bad/duplicate frame to drop). -/
def pairDrop (a b : Option Img) : Bool :=
  decide (scoreOrZero a b > 95/100)

/-- The `local_results` vector one batch worker produces for its chunk:
one comparison per `i in 0..chunk.len().saturating_sub(1)`, plus the
sentinel `false` pushed when the chunk is nonempty and shorter than
`batch_size`. -/
def localResults (chunk : List (Option Img)) : List Bool :=
  (List.range (chunk.length - 1)).map
    (fun i => pairDrop (chunk.getD i none) (chunk.getD (i+1) none))
  ++ (if chunk.isEmpty = false ∧ chunk.length < batch_size then [false] else [])

/-- Fuel-indexed chunking (fuel bounds the recursion depth so the
definition is structural and computes by `rfl`). -/
def chunkListAux {α : Type} : Nat → List α → List (List α)
  | _, [] => []
  | 0, _ :: _ => []
  | f+1, x :: xs => ((x :: xs).take batch_size) :: chunkListAux f ((x :: xs).drop batch_size)

/-- `frames_vec.par_chunks(batch_size)`: the list of contiguous chunks of
size `batch_size` (the last chunk may be shorter). -/
def chunkList {α : Type} (l : List α) : List (List α) :=
  chunkListAux l.length l

/-- `usize` subtraction `n - 1` as compiled in release mode: wrapping
modulo `2^64`. -/
def usizePred (n : Nat) : Nat :=
  (n + (2^64 - 1)) % 2^64

/-- The `while bad_frames.len() < frames_vec.len() - 1 { bad_frames.push(false) }`
padding loop: append `false` until the target length is reached. -/
def padTo (l : List Bool) (target : Nat) : List Bool :=
  l ++ List.replicate (target - l.length) false

/-- The final `bad_frames` vector of `process_video`: the chunk result lists
arrive in an arbitrary completion order `order` (a permutation of
`(chunkList frames).map localResults`), are flattened by the mutex-guarded
`extend`, padded by the `while` loop to `frames_vec.len() - 1` (with `usize`
wrapping), and a final `false` is pushed for the last frame. -/
def finalDecisions (frames : List (Option Img)) (order : List (List Bool)) : List Bool :=
  padTo order.flatten (usizePred frames.length) ++ [false]

/-- The index pairs `(chunk[i], chunk[i+1])` that one chunk's inner loop
scores, expressed on a chunk of global frame indices. -/
def withinChunkPairs (c : List Nat) : List (Nat × Nat) :=
  (List.range (c.length - 1)).map (fun i => (c.getD i 0, c.getD (i+1) 0))

/-- The set of global adjacencies `process_video` ever scores for a sequence
of `n` frames: the within-chunk pairs of each `par_chunks(batch_size)`
chunk of the index sequence `0, …, n-1`. -/
def scoredPairs (n : Nat) : List (Nat × Nat) :=
  (chunkList (List.range n)).flatMap withinChunkPairs

/-- An abstract filesystem node: a regular file (carrying the numeric
suffix of its `frame_%04d` name and its extension) or a directory whose
entries are listed in the order `read_dir` yields them. -/
inductive FsNode : Type where
  | file (frameIdx : Nat) (ext : String) : FsNode
  | dir (entries : List FsNode) : FsNode

mutual

/-- `collect_files`: a `png` file is returned as a singleton; a directory's
entries are processed in `read_dir` order (which `par_bridge` may further
permute — the identity permutation used here is one realisable schedule),
recursing into subdirectories and keeping `png` files. No sorting occurs
anywhere. -/
def collect_files : FsNode → List Nat
  | FsNode.file n e => if e = "png" then [n] else []
  | FsNode.dir es => collectEntries es

/-- The `flat_map` over a directory's entries inside `collect_files`. -/
def collectEntries : List FsNode → List Nat
  | [] => []
  | e :: es => collect_files e ++ collectEntries es

end

/-- One call of `get_ffmpeg_path`, as a transition on the contents of the
`FFMPEG_PATH` cache (the mutex is held for the whole call, so concurrent
calls execute as some sequence of these transitions). `p` is the path a
successful `extract_ffmpeg` returns (`temp_dir().join("ffmpeg")`, the same
every time). Result: the returned path, the new cache contents, and whether
this call staged (extracted) the executable. -/
def get_ffmpeg_path (p : String) : Option String → String × Option String × Bool
  | some q => (q, some q, false)
  | none => (p, some p, true)

/-- A trace of `n` successive `get_ffmpeg_path` calls from a given cache
state: the list of returned paths, the final cache state, and the total
number of calls that staged the executable. -/
def runGetCalls (p : String) : Nat → Option String → List String × Option String × Nat
  | 0, st => ([], st, 0)
  | n+1, st =>
      let r := get_ffmpeg_path p st
      let rest := runGetCalls p n r.2.1
      (r.1 :: rest.1, rest.2.1, (if r.2.2 then 1 else 0) + rest.2.2)

/-- What `stitch_frames_into_video` does with the external process's exit
status: on non-zero exit it only prints to stderr; its return type is unit,
so no status reaches the caller. -/
structure StitchOutcome where
  errorLogged : Bool
  statusReturned : Option Bool

/-- `stitch_frames_into_video`, as a function of whether the external
encode process exited successfully. -/
def stitch_frames_into_video (exitSuccess : Bool) : StitchOutcome :=
  { errorLogged := !exitSuccess, statusReturned := none }

/-- What the caller observes after the encode step of the standalone
`main` (`video-fixer.rs`): whether a success line naming the output was
printed, which output path was reported, and whether any failure was
signalled to the environment. -/
structure MainReport where
  successPrinted : Bool
  reportedOutputPath : Option String
  failureSignaled : Bool

/-- The tail of `main` after pruning: it calls `stitch_frames_into_video`
(which returns unit whatever the exit status) and then unconditionally
prints `Video created: {output_video}`; no failure is signalled. -/
def mainEncodeAndReport (exitSuccess : Bool) (outputVideo : String) : MainReport :=
  let _ := stitch_frames_into_video exitSuccess
  { successPrinted := true
    reportedOutputPath := some outputVideo
    failureSignaled := false }

/-- A 1×1 image with constant luma `v`. -/
def onePx (v : Nat) : Img :=
  { width := 1, height := 1, pixel := fun _ _ => v }

/-! ## Helper lemmas -/

lemma ssimC1_pos : 0 < ssimC1 := by norm_num [ssimC1]

lemma ssimC2_pos : 0 < ssimC2 := by norm_num [ssimC2]

lemma ssimTerm_eq (p1 p2 : ℚ) :
    ssimTerm p1 p2 =
      ((2*p1*p2 + ssimC1) * ssimC2) / ((p1^2 + p2^2 + ssimC1) * ssimC2) := by
  unfold ssimTerm
  simp [sub_self]

lemma ssimTerm_self (p : ℚ) : ssimTerm p p = 1 := by
  rw [ssimTerm_eq]
  rw [show 2*p*p + ssimC1 = p^2 + p^2 + ssimC1 by ring]
  have hd : (p^2 + p^2 + ssimC1) * ssimC2 ≠ 0 := by
    have h1 : 0 < p^2 + p^2 + ssimC1 := by nlinarith [sq_nonneg p, ssimC1_pos]
    exact (mul_pos h1 ssimC2_pos).ne'
  exact div_self hd

lemma ssimTerm_nonneg (p1 p2 : ℚ) (h1 : 0 ≤ p1) (h2 : 0 ≤ p2) :
    0 ≤ ssimTerm p1 p2 := by
  rw [ssimTerm_eq]
  have hc1 := ssimC1_pos
  have hc2 := ssimC2_pos
  have hp : 0 ≤ p1 * p2 := mul_nonneg h1 h2
  have hnum : 0 ≤ (2*p1*p2 + ssimC1) * ssimC2 := by
    apply mul_nonneg _ hc2.le
    nlinarith
  have hden : 0 ≤ (p1^2 + p2^2 + ssimC1) * ssimC2 := by
    apply mul_nonneg _ hc2.le
    nlinarith [sq_nonneg p1, sq_nonneg p2]
  exact div_nonneg hnum hden

lemma ssimTerm_le_one (p1 p2 : ℚ) : ssimTerm p1 p2 ≤ 1 := by
  rw [ssimTerm_eq]
  have hc1 := ssimC1_pos
  have hc2 := ssimC2_pos
  have hden : 0 < (p1^2 + p2^2 + ssimC1) * ssimC2 := by
    apply mul_pos _ hc2
    nlinarith [sq_nonneg p1, sq_nonneg p2]
  rw [div_le_one hden]
  have h2 : 2*p1*p2 ≤ p1^2 + p2^2 := two_mul_le_add_sq p1 p2
  have : 2*p1*p2 + ssimC1 ≤ p1^2 + p2^2 + ssimC1 := by linarith
  exact mul_le_mul_of_nonneg_right this hc2.le

lemma list_sum_nonneg (l : List ℚ) (h : ∀ x ∈ l, 0 ≤ x) : 0 ≤ l.sum := by
  induction l with
  | nil => simp
  | cons a t ih =>
      simp only [List.sum_cons]
      have ha := h a (by simp)
      have ht := ih (fun x hx => h x (by simp [hx]))
      linarith

lemma list_sum_le_length (l : List ℚ) (c : ℚ) (h : ∀ x ∈ l, x ≤ c) :
    l.sum ≤ l.length * c := by
  induction l with
  | nil => simp
  | cons a t ih =>
      simp only [List.sum_cons, List.length_cons]
      have ha := h a (by simp)
      have ht := ih (fun x hx => h x (by simp [hx]))
      push_cast
      ring_nf
      ring_nf at ht
      linarith

lemma getD_append_len {α : Type} (xs ys : List α) (d : α) :
    (xs ++ ys).getD xs.length d = ys.getD 0 d := by
  induction xs with
  | nil => simp
  | cons a t ih => simpa using ih

lemma chunkListAux_fuel {α : Type} :
    ∀ (f g : Nat) (l : List α), l.length ≤ f → l.length ≤ g →
      chunkListAux f l = chunkListAux g l := by
  intro f
  induction f with
  | zero =>
      intro g l hf _
      have : l = [] := List.eq_nil_of_length_eq_zero (Nat.le_zero.mp hf)
      subst this
      cases g <;> rfl
  | succ f ih =>
      intro g l hf hg
      match l with
      | [] => cases g <;> rfl
      | x :: xs =>
          match g with
          | 0 => simp at hg
          | g + 1 =>
              show ((x :: xs).take batch_size) :: chunkListAux f ((x :: xs).drop batch_size)
                  = ((x :: xs).take batch_size) :: chunkListAux g ((x :: xs).drop batch_size)
              congr 1
              apply ih
              · simp only [List.length_drop, List.length_cons, batch_size] at *
                omega
              · simp only [List.length_drop, List.length_cons, batch_size] at *
                omega

lemma chunkList_cons {α : Type} (l : List α) (h : l ≠ []) :
    chunkList l = l.take batch_size :: chunkList (l.drop batch_size) := by
  match l with
  | [] => exact absurd rfl h
  | x :: xs =>
      show chunkListAux (x :: xs).length (x :: xs) = _
      have hstep : chunkListAux (x :: xs).length (x :: xs)
          = ((x :: xs).take batch_size) :: chunkListAux xs.length ((x :: xs).drop batch_size) := by
        simp only [List.length_cons]
        rfl
      rw [hstep]
      congr 1
      apply chunkListAux_fuel
      · simp only [List.length_drop, List.length_cons, batch_size]
        omega
      · exact Nat.le_refl _

lemma localResults_length (c : List (Option Img)) :
    (localResults c).length =
      (c.length - 1) + (if c.isEmpty = false ∧ c.length < batch_size then 1 else 0) := by
  unfold localResults
  rw [List.length_append, List.length_map, List.length_range]
  congr 1
  by_cases h : c.isEmpty = false ∧ c.length < batch_size
  · rw [if_pos h, if_pos h]
    rfl
  · rw [if_neg h, if_neg h]
    rfl

lemma chunkList_nil {α : Type} : chunkList ([] : List α) = [] := rfl

lemma chunkList_small {α : Type} (l : List α) (h : l ≠ []) (hle : l.length ≤ batch_size) :
    chunkList l = [l] := by
  rw [chunkList_cons l h, List.take_of_length_le hle, List.drop_eq_nil_of_le hle]
  rfl

lemma perm_flatten_length (A B : List (List Bool)) (h : A.Perm B) :
    A.flatten.length = B.flatten.length := by
  rw [List.length_flatten, List.length_flatten]
  exact (h.map List.length).sum_eq

lemma padTo_length (l : List Bool) (t : Nat) :
    (padTo l t).length = l.length + (t - l.length) := by
  simp [padTo]

lemma usizePred_eq (n : Nat) (h1 : 1 ≤ n) (h2 : n < 2^64) : usizePred n = n - 1 := by
  unfold usizePred
  omega

lemma usizePred_zero : usizePred 0 = 2^64 - 1 := by
  unfold usizePred
  omega

lemma localResults_getD (chunk : List (Option Img)) (j : Nat) (hj : j + 1 < chunk.length) :
    (localResults chunk).getD j false
      = pairDrop (chunk.getD j none) (chunk.getD (j+1) none) := by
  unfold localResults
  rw [List.getD_append _ _ _ _ (by simp only [List.length_map, List.length_range]; omega)]
  rw [List.getD_eq_getElem _ _ (by simp only [List.length_map, List.length_range]; omega)]
  simp

lemma range_map_adj {β : Type} (f : Option Img → Option Img → β) :
    ∀ (l : List (Option Img)),
      (List.range (l.length - 1)).map (fun i => f (l.getD i none) (l.getD (i+1) none))
        = (l.zip l.tail).map (fun p => f p.1 p.2) := by
  intro l
  induction l with
  | nil => rfl
  | cons a t ih =>
      match t with
      | [] => rfl
      | b :: t' =>
          have hlen : (a :: b :: t').length - 1 = t'.length + 1 := by simp
          rw [hlen, List.range_succ_eq_map, List.map_cons, List.map_map]
          have hstep :
              (List.range t'.length).map ((fun i => f ((a :: b :: t').getD i none) ((a :: b :: t').getD (i+1) none)) ∘ Nat.succ)
                = (List.range ((b :: t').length - 1)).map
                    (fun i => f ((b :: t').getD i none) ((b :: t').getD (i+1) none)) := by
            have hlen2 : (b :: t').length - 1 = t'.length := by simp
            rw [hlen2]
            apply List.map_congr_left
            intro i _
            simp [Function.comp]
          rw [hstep, ih]
          simp

lemma localResults_eq_zip (chunk : List (Option Img)) :
    localResults chunk =
      (chunk.zip chunk.tail).map (fun p => pairDrop p.1 p.2)
      ++ (if chunk.isEmpty = false ∧ chunk.length < batch_size then [false] else []) := by
  unfold localResults
  rw [range_map_adj]

lemma results_length_le :
    ∀ (n : Nat) (l : List (Option Img)), l.length ≤ n → batch_size ≤ l.length →
      (((chunkList l).map localResults).flatten).length ≤ l.length - 1 := by
  intro n
  induction n with
  | zero =>
      intro l h1 h2
      simp only [batch_size] at h2
      omega
  | succ n ih =>
      intro l h1 h2
      have hne : l ≠ [] := by
        intro e
        subst e
        simp [batch_size] at h2
      rw [chunkList_cons l hne]
      simp only [List.map_cons, List.flatten_cons, List.length_append]
      have htake : (l.take batch_size).length = batch_size := by
        rw [List.length_take]
        omega
      have hhead : (localResults (l.take batch_size)).length = batch_size - 1 := by
        rw [localResults_length, htake]
        simp
      have hdroplen : (l.drop batch_size).length = l.length - batch_size := by
        simp
      by_cases hcase : batch_size ≤ (l.drop batch_size).length
      · have hrec := ih (l.drop batch_size) (by simp only [List.length_drop, batch_size] at *; omega) hcase
        simp only [List.length_drop, batch_size] at *
        omega
      · by_cases hnil : l.drop batch_size = []
        · rw [hnil, chunkList_nil]
          simp only [List.map_nil, List.flatten_nil, List.length_nil]
          simp only [batch_size] at *
          omega
        · rw [chunkList_small _ hnil (by omega)]
          simp only [List.map_cons, List.map_nil, List.flatten_cons, List.flatten_nil,
            List.length_append, List.length_nil]
          have hiempty : (l.drop batch_size).isEmpty = false := by
            simpa [List.isEmpty_iff] using hnil
          have hpos : 0 < (l.drop batch_size).length := List.length_pos.mpr hnil
          have hlast : (localResults (l.drop batch_size)).length
              = (l.drop batch_size).length + 1 - 1 := by
            rw [localResults_length, if_pos ⟨hiempty, by omega⟩]
            omega
          simp only [List.length_drop] at hlast
          simp only [batch_size] at *
          omega

lemma flatten_all_false (order M : List (List Bool)) (hperm : order.Perm M)
    (hall : ∀ r ∈ M, ∀ b ∈ r, b = false) :
    ∀ b ∈ order.flatten, b = false := by
  intro b hb
  rcases List.mem_flatten.mp hb with ⟨r, hr, hbr⟩
  exact hall r (hperm.mem_iff.mp hr) b hbr

lemma getD_pad_push (L : List Bool) (t : Nat) (hlen : L.length ≤ t) :
    (padTo L t ++ [false]).getD t true = false := by
  have hpadlen : (padTo L t).length = t := by
    rw [padTo_length]
    omega
  calc (padTo L t ++ [false]).getD t true
      = (padTo L t ++ [false]).getD (padTo L t).length true := by rw [hpadlen]
    _ = ([false] : List Bool).getD 0 true := getD_append_len _ _ _
    _ = false := rfl

lemma finalDecisions_last (frames : List (Option Img)) (order : List (List Bool))
    (h1 : 1 ≤ frames.length) (h2 : frames.length < 2^64)
    (hperm : order.Perm ((chunkList frames).map localResults)) :
    (finalDecisions frames order).getD (frames.length - 1) true = false := by
  have hne : frames ≠ [] := by
    intro e
    subst e
    simp at h1
  unfold finalDecisions
  rw [usizePred_eq _ h1 h2]
  by_cases hge : batch_size ≤ frames.length
  · have hlen : order.flatten.length ≤ frames.length - 1 := by
      rw [perm_flatten_length _ _ hperm]
      exact results_length_le frames.length frames (Nat.le_refl _) hge
    exact getD_pad_push order.flatten (frames.length - 1) hlen
  · have hsmall : frames.length ≤ batch_size := by omega
    have hchunks : chunkList frames = [frames] := chunkList_small frames hne hsmall
    have horder : order = [localResults frames] := by
      apply List.perm_singleton.mp
      simpa [hchunks] using hperm
    subst horder
    have hflat : ([localResults frames] : List (List Bool)).flatten = localResults frames := by
      simp
    rw [hflat]
    have hsent : localResults frames =
        ((List.range (frames.length - 1)).map
          (fun i => pairDrop (frames.getD i none) (frames.getD (i+1) none))) ++ [false] := by
      unfold localResults
      congr 1
      rw [if_pos]
      constructor
      · simpa [List.isEmpty_iff] using hne
      · simp only [batch_size] at *
        omega
    have hlrlen : (localResults frames).length = frames.length := by
      rw [localResults_length]
      rw [if_pos ⟨by simpa [List.isEmpty_iff] using hne, by simp only [batch_size] at *; omega⟩]
      omega
    have hpad : padTo (localResults frames) (frames.length - 1) = localResults frames := by
      unfold padTo
      rw [hlrlen]
      rw [show frames.length - 1 - frames.length = 0 by omega]
      simp
    rw [hpad, hsent, List.append_assoc]
    set P := (List.range (frames.length - 1)).map
      (fun i => pairDrop (frames.getD i none) (frames.getD (i+1) none)) with hPdef
    have hP : P.length = frames.length - 1 := by
      rw [hPdef]
      simp
    rw [← hP, getD_append_len]
    rfl

lemma withinChunkPairs_mem (c : List Nat) (x y : Nat) (h : (x, y) ∈ withinChunkPairs c) :
    ∃ i, i + 1 < c.length ∧ x = c.getD i 0 ∧ y = c.getD (i+1) 0 := by
  unfold withinChunkPairs at h
  rcases List.mem_map.mp h with ⟨i, hi, heq⟩
  rw [List.mem_range] at hi
  refine ⟨i, by omega, ?_, ?_⟩
  · exact (congrArg Prod.fst heq).symm
  · exact (congrArg Prod.snd heq).symm

lemma range'_getD (s n i : Nat) (hi : i < n) : (List.range' s n).getD i 0 = s + i := by
  rw [List.getD_eq_getElem _ _ (by simpa using hi)]
  exact List.getElem_range'_1 i (by simpa using hi)

lemma not_scored_boundary_aux :
    ∀ (n : Nat), ∀ (s j : Nat), s % 10 = 0 → j % 10 = 9 →
      (j, j+1) ∉ (chunkList (List.range' s n)).flatMap withinChunkPairs := by
  intro n
  induction n using Nat.strong_induction_on with
  | _ n ih =>
      intro s j hs hj hmem
      rcases Nat.eq_zero_or_pos n with h0 | hpos
      · subst h0
        simp [chunkList_nil] at hmem
      · have hne : List.range' s n ≠ [] := by
          simp only [ne_eq, List.range'_eq_nil]
          omega
        rw [chunkList_cons _ hne] at hmem
        rw [List.flatMap_cons] at hmem
        rcases List.mem_append.mp hmem with hin | hin
        · rcases withinChunkPairs_mem _ _ _ hin with ⟨i, hilen, hx, hy⟩
          have hlen : ((List.range' s n).take batch_size).length = min batch_size n := by
            simp
          have hi10 : i + 1 < min batch_size n := by omega
          have hval : ((List.range' s n).take batch_size).getD i 0 = s + i := by
            rw [List.getD_eq_getElem _ _ (by omega)]
            rw [List.getElem_take]
            exact List.getElem_range'_1 i (by simp; omega)
          rw [hval] at hx
          simp only [batch_size] at hi10
          omega
        · by_cases hle : n ≤ batch_size
          · rw [List.drop_eq_nil_of_le (by simpa using hle), chunkList_nil] at hin
            simp at hin
          · have hdrop : (List.range' s n).drop batch_size
                = List.range' (s + batch_size) (n - batch_size) := by
              have happ : List.range' s batch_size ++ List.range' (s + batch_size) (n - batch_size)
                  = List.range' s n := by
                rw [List.range'_append_1]
                congr 1
                omega
              rw [← happ, List.drop_left' (by simp)]
            rw [hdrop] at hin
            have hjs : (s + batch_size) % 10 = 0 := by
              simp only [batch_size]
              omega
            exact ih (n - batch_size) (by simp only [batch_size]; omega) (s + batch_size) j hjs hj hin

lemma batch_boundary_never_scored (n j : Nat) (hj : j % 10 = 9) :
    (j, j+1) ∉ scoredPairs n := by
  unfold scoredPairs
  rw [List.range_eq_range']
  exact not_scored_boundary_aux n 0 j (by omega) hj

lemma score_onePx (u v : Nat) :
    compare_images_ssim_crate (some (onePx u)) (some (onePx v))
      = some (ssimTerm (u : ℚ) (v : ℚ)) := by
  simp [compare_images_ssim_crate, onePx, ssimSum]

lemma pairDrop_onePx_same (v : Nat) :
    pairDrop (some (onePx v)) (some (onePx v)) = true := by
  have h : scoreOrZero (some (onePx v)) (some (onePx v)) > 95/100 := by
    rw [scoreOrZero, score_onePx]
    simp only [Option.getD_some]
    rw [ssimTerm_self]
    norm_num
  simp [pairDrop, h]

lemma pairDrop_bw : pairDrop (some (onePx 0)) (some (onePx 255)) = false := by
  have h : ¬ (scoreOrZero (some (onePx 0)) (some (onePx 255)) > 95/100) := by
    rw [scoreOrZero, score_onePx]
    simp only [Option.getD_some]
    norm_num [ssimTerm, ssimC1, ssimC2]
  simp [pairDrop, h]

lemma pairDrop_wb : pairDrop (some (onePx 255)) (some (onePx 0)) = false := by
  have h : ¬ (scoreOrZero (some (onePx 255)) (some (onePx 0)) > 95/100) := by
    rw [scoreOrZero, score_onePx]
    simp only [Option.getD_some]
    norm_num [ssimTerm, ssimC1, ssimC2]
  simp [pairDrop, h]

lemma pairDrop_gb : pairDrop (some (onePx 128)) (some (onePx 0)) = false := by
  have h : ¬ (scoreOrZero (some (onePx 128)) (some (onePx 0)) > 95/100) := by
    rw [scoreOrZero, score_onePx]
    simp only [Option.getD_some]
    norm_num [ssimTerm, ssimC1, ssimC2]
  simp [pairDrop, h]

/-- Chunk 1 (frame indices 0–9) of the 21-frame boundary scenario: frames
alternate solid black / solid white, so no scored adjacent pair is similar;
frame 9 is white. -/
def c21a : List (Option Img) :=
  [some (onePx 0), some (onePx 255), some (onePx 0), some (onePx 255), some (onePx 0),
   some (onePx 255), some (onePx 0), some (onePx 255), some (onePx 0), some (onePx 255)]

/-- Chunk 2 (frame indices 10–19): frame 10 is white — identical to frame 9,
the maximally similar pair straddling the 9/10 batch boundary — and the rest
alternate. -/
def c21b : List (Option Img) :=
  [some (onePx 255), some (onePx 0), some (onePx 255), some (onePx 0), some (onePx 255),
   some (onePx 0), some (onePx 255), some (onePx 0), some (onePx 255), some (onePx 0)]

/-- Chunk 3 (frame index 20). -/
def c21c : List (Option Img) := [some (onePx 255)]

/-- The 21-frame sequence with two maximally similar frames at positions
9 and 10 (0-based) and all scored adjacencies dissimilar. -/
def frames21 : List (Option Img) := c21a ++ c21b ++ c21c

lemma frames21_chunks : chunkList frames21 = [c21a, c21b, c21c] := by
  have h1 : frames21 = c21a ++ (c21b ++ c21c) := by simp [frames21]
  rw [h1, chunkList_cons _ (by simp [c21a]), List.take_left' (by simp [c21a, batch_size]),
    List.drop_left' (by simp [c21a, batch_size])]
  rw [chunkList_cons _ (by simp [c21b, c21c]), List.take_left' (by simp [c21b, batch_size]),
    List.drop_left' (by simp [c21b, batch_size])]
  rw [chunkList_small c21c (by simp [c21c]) (by simp [c21c, batch_size])]

lemma localResults_c21a :
    localResults c21a
      = [false, false, false, false, false, false, false, false, false] := by
  rw [localResults_eq_zip]
  simp [c21a, pairDrop_bw, pairDrop_wb, batch_size]

lemma localResults_c21b :
    localResults c21b
      = [false, false, false, false, false, false, false, false, false] := by
  rw [localResults_eq_zip]
  simp [c21b, pairDrop_bw, pairDrop_wb, batch_size]

lemma localResults_c21c : localResults c21c = [false] := by
  rw [localResults_eq_zip]
  simp [c21c, batch_size]

lemma frames21_results :
    (chunkList frames21).map localResults =
      [[false, false, false, false, false, false, false, false, false],
       [false, false, false, false, false, false, false, false, false],
       [false]] := by
  rw [frames21_chunks]
  simp only [List.map_cons, List.map_nil]
  rw [localResults_c21a, localResults_c21b, localResults_c21c]

lemma getD_flatten_false (L : List Bool) (t i : Nat) (hall : ∀ b ∈ L, b = false)
    (hi : i < L.length) : (padTo L t ++ [false]).getD i true = false := by
  rw [List.getD_append _ _ _ _ (by rw [padTo_length]; omega)]
  unfold padTo
  rw [List.getD_append _ _ _ _ hi]
  rw [List.getD_eq_getElem _ _ hi]
  exact hall _ (List.getElem_mem hi)

/-- A 5-frame sequence of alternating black/white frames (a single partial
batch). -/
def frames5 : List (Option Img) :=
  [some (onePx 0), some (onePx 255), some (onePx 0), some (onePx 255), some (onePx 0)]

lemma localResults_frames5 :
    localResults frames5 = [false, false, false, false, false] := by
  rw [localResults_eq_zip]
  simp [frames5, pairDrop_bw, pairDrop_wb, batch_size]

lemma frames5_chunks : chunkList frames5 = [frames5] := by
  exact chunkList_small frames5 (by simp [frames5]) (by simp [frames5, batch_size])

lemma frames5_decisions :
    finalDecisions frames5 [localResults frames5]
      = [false, false, false, false, false, false] := by
  unfold finalDecisions
  rw [localResults_frames5]
  rw [show frames5.length = 5 by simp [frames5]]
  rw [usizePred_eq 5 (by norm_num) (by norm_num)]
  rfl

/-- Chunk 1 (frame indices 0–9) of the completion-order scenario: frames 0
and 1 are identical (solid gray), the rest alternate black/white. -/
def c11a : List (Option Img) :=
  [some (onePx 128), some (onePx 128), some (onePx 0), some (onePx 255), some (onePx 0),
   some (onePx 255), some (onePx 0), some (onePx 255), some (onePx 0), some (onePx 255)]

/-- Chunk 2 (frame index 10) of the completion-order scenario. -/
def c11b : List (Option Img) := [some (onePx 0)]

/-- The 11-frame sequence whose first two frames are identical. -/
def frames11 : List (Option Img) := c11a ++ c11b

lemma frames11_chunks : chunkList frames11 = [c11a, c11b] := by
  rw [frames11, chunkList_cons _ (by simp [c11a]), List.take_left' (by simp [c11a, batch_size]),
    List.drop_left' (by simp [c11a, batch_size])]
  rw [chunkList_small c11b (by simp [c11b]) (by simp [c11b, batch_size])]

lemma localResults_c11a :
    localResults c11a
      = [true, false, false, false, false, false, false, false, false] := by
  rw [localResults_eq_zip]
  simp [c11a, pairDrop_onePx_same, pairDrop_gb, pairDrop_bw, pairDrop_wb, batch_size]

lemma localResults_c11b : localResults c11b = [false] := by
  rw [localResults_eq_zip]
  simp [c11b, batch_size]

/-- The completion order in which the second batch's worker finishes (and
appends) before the first batch's worker. -/
def ordSwap : List (List Bool) := [localResults c11b, localResults c11a]

lemma frames11_decisions_swapped :
    finalDecisions frames11 ordSwap
      = [false, true, false, false, false, false, false, false, false, false, false] := by
  unfold finalDecisions ordSwap
  rw [localResults_c11a, localResults_c11b]
  rw [show frames11.length = 11 by simp [frames11, c11a, c11b]]
  rw [usizePred_eq 11 (by norm_num) (by norm_num)]
  rfl

lemma ssimSum_identical (a b : Img)
    (hpix : ∀ x, x < a.width → ∀ y, y < a.height → a.pixel x y = b.pixel x y) :
    ssimSum a b = (a.height : ℚ) * (a.width : ℚ) := by
  unfold ssimSum
  have hrow : ∀ y ∈ List.range a.height,
      ((List.range a.width).map (fun x => ssimTerm (a.pixel x y) (b.pixel x y))).sum
        = (a.width : ℚ) := by
    intro y hy
    rw [List.mem_range] at hy
    have hmap : (List.range a.width).map (fun x => ssimTerm (a.pixel x y) (b.pixel x y))
        = (List.range a.width).map (fun _ => (1:ℚ)) := by
      apply List.map_congr_left
      intro x hx
      rw [List.mem_range] at hx
      rw [hpix x hx y hy, ssimTerm_self]
    rw [hmap, List.map_const']
    simp
  calc ((List.range a.height).map (fun y =>
          ((List.range a.width).map (fun x => ssimTerm (a.pixel x y) (b.pixel x y))).sum)).sum
      = ((List.range a.height).map (fun _ => (a.width : ℚ))).sum := by
        exact congrArg List.sum (List.map_congr_left hrow)
    _ = (a.height : ℚ) * (a.width : ℚ) := by
        rw [List.map_const']
        simp [nsmul_eq_mul]

lemma compare_identical (a b : Img) (hw : a.width = b.width) (hh : a.height = b.height)
    (hwpos : 0 < a.width) (hhpos : 0 < a.height)
    (hpix : ∀ x, x < a.width → ∀ y, y < a.height → a.pixel x y = b.pixel x y) :
    compare_images_ssim_crate (some a) (some b) = some 1 := by
  rw [show compare_images_ssim_crate (some a) (some b)
      = if a.width = b.width ∧ a.height = b.height
        then some (ssimSum a b / ((a.width * a.height : Nat) : ℚ)) else none from rfl]
  rw [if_pos ⟨hw, hh⟩]
  congr 1
  rw [ssimSum_identical a b hpix]
  rw [Nat.cast_mul]
  rw [mul_comm ((a.height : ℚ)) ((a.width : ℚ))]
  apply div_self
  have hw0 : (0:ℚ) < (a.width : ℚ) := by exact_mod_cast hwpos
  have hh0 : (0:ℚ) < (a.height : ℚ) := by exact_mod_cast hhpos
  positivity

lemma compare_bounds (a b : Img) (q : ℚ) (hwpos : 0 < a.width) (hhpos : 0 < a.height)
    (hq : compare_images_ssim_crate (some a) (some b) = some q) :
    0 ≤ q ∧ q ≤ 1 := by
  rw [show compare_images_ssim_crate (some a) (some b)
      = if a.width = b.width ∧ a.height = b.height
        then some (ssimSum a b / ((a.width * a.height : Nat) : ℚ)) else none from rfl] at hq
  by_cases hdim : a.width = b.width ∧ a.height = b.height
  · rw [if_pos hdim] at hq
    have hqe : q = ssimSum a b / ((a.width * a.height : Nat) : ℚ) :=
      (Option.some_inj.mp hq).symm
    have hterm : ∀ y, ∀ x, 0 ≤ ssimTerm (a.pixel x y) (b.pixel x y) ∧
        ssimTerm (a.pixel x y) (b.pixel x y) ≤ 1 := by
      intro y x
      exact ⟨ssimTerm_nonneg _ _ (Nat.cast_nonneg _) (Nat.cast_nonneg _), ssimTerm_le_one _ _⟩
    have hrow : ∀ y, 0 ≤ ((List.range a.width).map
        (fun x => ssimTerm (a.pixel x y) (b.pixel x y))).sum ∧
        ((List.range a.width).map (fun x => ssimTerm (a.pixel x y) (b.pixel x y))).sum
          ≤ (a.width : ℚ) := by
      intro y
      constructor
      · apply list_sum_nonneg
        intro x hx
        rcases List.mem_map.mp hx with ⟨i, _, hi⟩
        rw [← hi]
        exact (hterm y i).1
      · have := list_sum_le_length
          ((List.range a.width).map (fun x => ssimTerm (a.pixel x y) (b.pixel x y))) 1
          (by
            intro x hx
            rcases List.mem_map.mp hx with ⟨i, _, hi⟩
            rw [← hi]
            exact (hterm y i).2)
        simpa using this
    have hsum0 : 0 ≤ ssimSum a b := by
      apply list_sum_nonneg
      intro x hx
      rcases List.mem_map.mp hx with ⟨y, _, hy⟩
      rw [← hy]
      exact (hrow y).1
    have hsum1 : ssimSum a b ≤ (a.height : ℚ) * (a.width : ℚ) := by
      have := list_sum_le_length
        ((List.range a.height).map (fun y =>
          ((List.range a.width).map (fun x => ssimTerm (a.pixel x y) (b.pixel x y))).sum))
        ((a.width : ℚ))
        (by
          intro x hx
          rcases List.mem_map.mp hx with ⟨y, _, hy⟩
          rw [← hy]
          exact (hrow y).2)
      simpa [ssimSum] using this
    have hwh : (0:ℚ) < ((a.width * a.height : Nat) : ℚ) := by
      have : 0 < a.width * a.height := Nat.mul_pos hwpos hhpos
      exact_mod_cast this
    constructor
    · rw [hqe]
      exact div_nonneg hsum0 hwh.le
    · rw [hqe]
      rw [div_le_one hwh]
      calc ssimSum a b ≤ (a.height : ℚ) * (a.width : ℚ) := hsum1
        _ = ((a.width * a.height : Nat) : ℚ) := by
            push_cast
            ring
  · rw [if_neg hdim] at hq
    exact absurd hq (by simp)

lemma runGetCalls_cached (p : String) :
    ∀ n, runGetCalls p n (some p) = (List.replicate n p, some p, 0) := by
  intro n
  induction n with
  | zero => rfl
  | succ n ih =>
      show (p :: (runGetCalls p n (some p)).1, (runGetCalls p n (some p)).2.1,
        (if false then 1 else 0) + (runGetCalls p n (some p)).2.2) = _
      rw [ih]
      rfl

/-- An image whose dimensions (2×1) differ from `onePx`'s (1×1). -/
def wideImg : Img :=
  { width := 2, height := 1, pixel := fun _ _ => 0 }

/-! ## Claim theorems -/

/-- C1: the claim says the final decision list has exactly one decision per
frame, with the decision at position `i` being the one computed for frame
`i`, for every batch completion order. The code violates both parts: for a
5-frame sequence (one partial batch) the code emits 6 decisions (the
partial-chunk sentinel plus the final push), and for an 11-frame sequence
whose first two frames are identical, the completion order in which the
second batch appends first puts `false` at position 0 even though the
decision computed for frame 0 is `true` (drop). -/
theorem decision_list_miscounted_and_misordered :
    frames5.length = 5 ∧
    ([localResults frames5] : List (List Bool)).Perm ((chunkList frames5).map localResults) ∧
    (finalDecisions frames5 [localResults frames5]).length = 6 ∧
    ordSwap.Perm ((chunkList frames11).map localResults) ∧
    pairDrop (frames11.getD 0 none) (frames11.getD 1 none) = true ∧
    (finalDecisions frames11 ordSwap).getD 0 false = false := by
  refine ⟨by simp [frames5], ?_, ?_, ?_, ?_, ?_⟩
  · rw [frames5_chunks]
    exact List.Perm.refl _
  · rw [frames5_decisions]
    rfl
  · rw [frames11_chunks]
    show (localResults c11b :: localResults c11a :: []).Perm _
    simp only [List.map_cons, List.map_nil]
    exact List.Perm.swap (localResults c11a) (localResults c11b) []
  · rw [show frames11.getD 0 none = some (onePx 128) from rfl,
      show frames11.getD 1 none = some (onePx 128) from rfl]
    exact pairDrop_onePx_same 128
  · rw [frames11_decisions_swapped]
    rfl

/-- C2: the claim says `collect_files` returns frames strictly ordered by
the numeric suffix of the filename regardless of traversal order. The code
never sorts: for a directory whose `read_dir` order lists `frame_0002.png`
before `frame_0001.png`, the result is `[2, 1]`, which is not ordered by
the numeric suffix. -/
theorem collect_files_ignores_numeric_order :
    collect_files (FsNode.dir [FsNode.file 2 "png", FsNode.file 1 "png"]) = [2, 1] ∧
    ¬ List.Chain' (· < ·)
      (collect_files (FsNode.dir [FsNode.file 2 "png", FsNode.file 1 "png"])) := by
  have h : collect_files (FsNode.dir [FsNode.file 2 "png", FsNode.file 1 "png"]) = [2, 1] := by
    simp [collect_files, collectEntries]
  refine ⟨h, ?_⟩
  rw [h]
  intro hc
  rw [List.chain'_cons] at hc
  exact absurd hc.1 (by omega)

/-- C3: the claim says that with zero decoded frames the job fails cleanly
with no output. In the code, `frames_vec.len() - 1` underflows `usize` for
an empty frame sequence, so the padding loop's target becomes `2^64 - 1`
and the decision vector the code builds has `2^64` entries instead of 0 —
the function never takes a clean failure path (it has no failure path at
all). -/
theorem zero_frames_underflow_explosion :
    ([] : List (Option Img)).length = 0 ∧
    ([] : List (List Bool)).Perm ((chunkList ([] : List (Option Img))).map localResults) ∧
    (finalDecisions ([] : List (Option Img)) ([] : List (List Bool))).length = 2^64 := by
  refine ⟨rfl, by rw [chunkList_nil]; exact List.Perm.refl _, ?_⟩
  have hrep : ∀ m : Nat, (List.replicate m false ++ [false]).length = m + 1 := by
    intro m
    simp
  have h : finalDecisions ([] : List (Option Img)) ([] : List (List Bool))
      = List.replicate (usizePred 0) false ++ [false] := rfl
  rw [h, hrep, usizePred_zero]
  omega

/-- C4: for decodable images with identical dimensions and identical pixel
content, `compare_images_ssim_crate` returns exactly the maximum score 1,
and when such a pair is adjacent within one batch the earlier frame's
decision in that batch's `local_results` is `true` (drop). -/
theorem identical_pair_scores_one_and_drops
    (a b : Img) (hw : a.width = b.width) (hh : a.height = b.height)
    (hwpos : 0 < a.width) (hhpos : 0 < a.height)
    (hpix : ∀ x, x < a.width → ∀ y, y < a.height → a.pixel x y = b.pixel x y)
    (chunk : List (Option Img)) (i : Nat) (hi : i + 1 < chunk.length)
    (ha : chunk.getD i none = some a) (hb : chunk.getD (i+1) none = some b) :
    compare_images_ssim_crate (some a) (some b) = some 1 ∧
    (localResults chunk).getD i false = true := by
  have hcmp := compare_identical a b hw hh hwpos hhpos hpix
  refine ⟨hcmp, ?_⟩
  rw [localResults_getD chunk i hi, ha, hb]
  have hscore : scoreOrZero (some a) (some b) = 1 := by
    rw [scoreOrZero, hcmp]
    rfl
  have hgt : scoreOrZero (some a) (some b) > 95/100 := by
    rw [hscore]
    norm_num
  simp [pairDrop, hgt]

/-- Witness for C4 at a concrete identical pair of 1×1 images inside a
two-frame chunk. -/
theorem identical_pair_scores_one_and_drops_witness :
    compare_images_ssim_crate (some (onePx 7)) (some (onePx 7)) = some 1 ∧
    (localResults [some (onePx 7), some (onePx 7)]).getD 0 false = true :=
  identical_pair_scores_one_and_drops (onePx 7) (onePx 7) rfl rfl
    (by decide) (by decide) (fun _ _ _ _ => rfl)
    [some (onePx 7), some (onePx 7)] 0 (by decide) rfl rfl

/-- C5: a batch-boundary adjacency (global index `j` with `j % 10 = 9`
against `j+1`) is never scored, for any sequence length; and in the
concrete 21-frame sequence whose frames 9 and 10 are identical (and all
scored adjacencies dissimilar), the final decisions at positions 9 and 10
are `false` (keep) for every batch completion order. -/
theorem batch_boundary_adjacency_never_scored :
    (∀ n j, j % 10 = 9 → (j, j+1) ∉ scoredPairs n) ∧
    (∀ order, order.Perm ((chunkList frames21).map localResults) →
      (finalDecisions frames21 order).getD 9 true = false ∧
      (finalDecisions frames21 order).getD 10 true = false) := by
  constructor
  · intro n j hj
    exact batch_boundary_never_scored n j hj
  · intro order hperm
    have hall : ∀ b ∈ order.flatten, b = false := by
      apply flatten_all_false _ _ hperm
      rw [frames21_results]
      intro r hr b hb
      rcases (by simpa using hr :
          r = [false, false, false, false, false, false, false, false, false] ∨
          r = [false]) with rfl | rfl <;> simpa using hb
    have hlen : order.flatten.length = 19 := by
      rw [perm_flatten_length _ _ hperm, frames21_results]
      rfl
    constructor
    · exact getD_flatten_false order.flatten _ 9 hall (by rw [hlen]; norm_num)
    · exact getD_flatten_false order.flatten _ 10 hall (by rw [hlen]; norm_num)

/-- Witness for C5: the boundary pair (9, 10) of a 21-frame sequence is
never scored, and with the identity completion order frames 9 and 10 are
kept. -/
theorem batch_boundary_adjacency_never_scored_witness :
    (9, 9+1) ∉ scoredPairs 21 ∧
    ((finalDecisions frames21 ((chunkList frames21).map localResults)).getD 9 true = false ∧
     (finalDecisions frames21 ((chunkList frames21).map localResults)).getD 10 true = false) :=
  ⟨batch_boundary_adjacency_never_scored.1 21 9 rfl,
   batch_boundary_adjacency_never_scored.2 _ (List.Perm.refl _)⟩

/-- C6: a pair whose images fail to decode or have mismatched dimensions is
scored `0.0` via `unwrap_or`, the earlier frame's decision is `false`
(keep), and every other pair's decision is still exactly the score
comparison for that pair — no failure propagates. -/
theorem mismatched_pair_scored_zero_and_kept
    (chunk : List (Option Img)) (i : Nat) (hi : i + 1 < chunk.length)
    (hbad : chunk.getD i none = none ∨ chunk.getD (i+1) none = none ∨
      ∃ a b, chunk.getD i none = some a ∧ chunk.getD (i+1) none = some b ∧
        ¬(a.width = b.width ∧ a.height = b.height)) :
    scoreOrZero (chunk.getD i none) (chunk.getD (i+1) none) = 0 ∧
    (localResults chunk).getD i false = false ∧
    (∀ j, j + 1 < chunk.length →
      (localResults chunk).getD j false
        = pairDrop (chunk.getD j none) (chunk.getD (j+1) none)) := by
  have hnone : compare_images_ssim_crate (chunk.getD i none) (chunk.getD (i+1) none) = none := by
    rcases hbad with h | h | ⟨a, b, ha, hb, hdim⟩
    · rw [h]
      rfl
    · rw [h]
      cases chunk.getD i none <;> rfl
    · rw [ha, hb]
      rw [show compare_images_ssim_crate (some a) (some b)
          = if a.width = b.width ∧ a.height = b.height
            then some (ssimSum a b / ((a.width * a.height : Nat) : ℚ)) else none from rfl]
      rw [if_neg hdim]
  have hscore : scoreOrZero (chunk.getD i none) (chunk.getD (i+1) none) = 0 := by
    rw [scoreOrZero, hnone]
    rfl
  refine ⟨hscore, ?_, fun j hj => localResults_getD chunk j hj⟩
  rw [localResults_getD chunk i hi]
  have hngt : ¬ (scoreOrZero (chunk.getD i none) (chunk.getD (i+1) none) > 95/100) := by
    rw [hscore]
    norm_num
  unfold pairDrop
  exact decide_eq_false hngt

/-- Witness for C6 at a concrete chunk whose first pair has mismatched
widths (1×1 against 2×1). -/
theorem mismatched_pair_scored_zero_and_kept_witness :
    scoreOrZero (([some (onePx 0), some wideImg] : List (Option Img)).getD 0 none)
        (([some (onePx 0), some wideImg] : List (Option Img)).getD 1 none) = 0 ∧
    (localResults [some (onePx 0), some wideImg]).getD 0 false = false ∧
    (∀ j, j + 1 < ([some (onePx 0), some wideImg] : List (Option Img)).length →
      (localResults [some (onePx 0), some wideImg]).getD j false
        = pairDrop (([some (onePx 0), some wideImg] : List (Option Img)).getD j none)
            (([some (onePx 0), some wideImg] : List (Option Img)).getD (j+1) none)) :=
  mismatched_pair_scored_zero_and_kept [some (onePx 0), some wideImg] 0 (by decide)
    (Or.inr (Or.inr ⟨onePx 0, wideImg, rfl, rfl, by decide⟩))

/-- C7: the last frame of the overall sequence always receives a keep
decision (`false` in `bad_frames`), for every nonempty sequence, every
similarity outcome and every batch completion order. -/
theorem last_frame_always_kept (frames : List (Option Img)) (order : List (List Bool))
    (h1 : 1 ≤ frames.length) (h2 : frames.length < 2^64)
    (hperm : order.Perm ((chunkList frames).map localResults)) :
    (finalDecisions frames order).getD (frames.length - 1) true = false :=
  finalDecisions_last frames order h1 h2 hperm

/-- Witness for C7 on a one-frame sequence with the identity completion
order. -/
theorem last_frame_always_kept_witness :
    (finalDecisions [some (onePx 3)]
      ((chunkList [some (onePx 3)]).map localResults)).getD 0 true = false :=
  last_frame_always_kept [some (onePx 3)] _ (by decide) (by norm_num) (List.Perm.refl _)

/-- C8: the claim says a non-zero encode exit marks the job failed with the
output path absent and never reports success. In the code,
`stitch_frames_into_video` only logs the failure and returns unit, and the
caller then unconditionally prints the success line with the output path
and signals no failure. -/
theorem encode_failure_still_reported_as_success :
    (stitch_frames_into_video false).errorLogged = true ∧
    (stitch_frames_into_video false).statusReturned = none ∧
    (mainEncodeAndReport false "clip_processed.mp4").successPrinted = true ∧
    (mainEncodeAndReport false "clip_processed.mp4").reportedOutputPath
      = some "clip_processed.mp4" ∧
    (mainEncodeAndReport false "clip_processed.mp4").failureSignaled = false :=
  ⟨rfl, rfl, rfl, rfl, rfl⟩

/-- C9: resolution of the ffmpeg path is cached process-wide: any trace of
`n ≥ 1` serialised `get_ffmpeg_path` calls from the empty cache stages the
executable exactly once and returns the same path every time, and a call
that finds the cache filled returns the cached path without staging. -/
theorem ffmpeg_path_resolution_cached (p : String) (n : Nat) (h : 1 ≤ n) :
    (runGetCalls p n none).1 = List.replicate n p ∧
    (runGetCalls p n none).2.2 = 1 ∧
    (∀ q st, st = some q → get_ffmpeg_path p st = (q, some q, false)) := by
  match n with
  | 0 => simp at h
  | m + 1 =>
      have hstep : runGetCalls p (m+1) none
          = (p :: (runGetCalls p m (some p)).1, (runGetCalls p m (some p)).2.1,
              1 + (runGetCalls p m (some p)).2.2) := rfl
      rw [hstep, runGetCalls_cached]
      refine ⟨rfl, rfl, ?_⟩
      intro q st hst
      subst hst
      rfl

/-- Witness for C9: three calls from a cold cache. -/
theorem ffmpeg_path_resolution_cached_witness :
    (runGetCalls "ffmpeg" 3 none).1 = List.replicate 3 "ffmpeg" ∧
    (runGetCalls "ffmpeg" 3 none).2.2 = 1 ∧
    (∀ q st, st = some q → get_ffmpeg_path "ffmpeg" st = (q, some q, false)) :=
  ffmpeg_path_resolution_cached "ffmpeg" 3 (by decide)

/-- C10: every score `compare_images_ssim_crate` actually returns for a
pair of decodable images (which forces identical dimensions) lies in the
closed interval [0, 1]: each per-pixel term reduces to
`(2*p1*p2 + C1) / (p1^2 + p2^2 + C1)`, which is nonnegative and at most 1,
and the average over all pixels stays in [0, 1]. -/
theorem score_in_unit_interval (a b : Img) (q : ℚ)
    (hwpos : 0 < a.width) (hhpos : 0 < a.height)
    (hq : compare_images_ssim_crate (some a) (some b) = some q) :
    0 ≤ q ∧ q ≤ 1 :=
  compare_bounds a b q hwpos hhpos hq

/-- Witness for C10 at a concrete identical pair (score exactly 1). -/
theorem score_in_unit_interval_witness :
    compare_images_ssim_crate (some (onePx 7)) (some (onePx 7)) = some 1 ∧
    (0 ≤ (1 : ℚ) ∧ (1 : ℚ) ≤ 1) :=
  ⟨compare_identical (onePx 7) (onePx 7) rfl rfl (by decide) (by decide)
      (fun _ _ _ _ => rfl),
   score_in_unit_interval (onePx 7) (onePx 7) 1 (by decide) (by decide)
    (compare_identical (onePx 7) (onePx 7) rfl rfl (by decide) (by decide)
      (fun _ _ _ _ => rfl))⟩
